import Mathlib

/-!
Shallow embedding of the World Bank document downloader
(`wb_downloader.py`): the PID/PAD classification heuristics, API
pagination and retry policy, language and recency selection, slug and
path generation, idempotent PDF download, and per-project processing,
together with proofs about the specification claims.

Modelling conventions:
* Python dict-based records become structures with `Option` fields; each
  read site applies the same `dict.get` default as the source.
* Machine-external effects (HTTP, filesystem, SHA-256) are explicit
  oracles: `net : String → Option (List Nat)` maps a URL to a response
  body (`none` = non-2xx or transport error raised before the file is
  written), the filesystem is `String → Option (List Nat)` (path to
  byte contents), and the SHA-256 primitive from `hashlib` is a
  parameter `sha : List Nat → String`.
* Unicode NFKD normalization (`unicodedata.normalize`) is modelled as
  the identity; every ASCII string is NFKD-normal, and the regular
  expression classes `\w`/`\s` are modelled on their ASCII fragment.
* String comparison (used by Python for sorting document dates) is
  code-point lexicographic comparison, implemented executably below.
-/

namespace WBDL

/-- Word character, the `\w` class of the source's regular expressions
(ASCII fragment: alphanumeric or underscore). -/
def isWordChar (c : Char) : Bool := c.isAlphanum || c = '_'

/-- Whitespace, the `\s` class of the source's regular expressions
(ASCII fragment). -/
def isSpaceCh (c : Char) : Bool :=
  c = ' ' || c = '\t' || c = '\n' || c = '\x0b' || c = '\x0c' || c = '\r'

/-- Match a literal string at the head of the input, returning the rest
of the input on success. -/
def stripLit : List Char → List Char → Option (List Char)
  | [], l => some l
  | _ :: _, [] => none
  | p :: ps, c :: cs => if c = p then stripLit ps cs else none

/-- A `\b` word boundary holds before the match of a literal starting
with a word character when the preceding character (if any) is not a
word character. -/
def boundaryBefore : Option Char → Bool
  | none => true
  | some c => !isWordChar c

/-- A `\b` word boundary holds after the match of a literal ending in a
word character when the next character (if any) is not a word character. -/
def boundaryAfter : List Char → Bool
  | [] => true
  | c :: _ => !isWordChar c

/-- Match `\s+` (one or more whitespace characters, greedily; safe here
because the following literal never starts with whitespace). -/
def oneOrMoreSpaces : List Char → Option (List Char)
  | [] => none
  | c :: rest => if isSpaceCh c then some (rest.dropWhile isSpaceCh) else none

/-- Alternative `\bproject information document\b` of the PID pattern. -/
def pidAlt1 (prev : Option Char) (l : List Char) : Bool :=
  boundaryBefore prev &&
    match stripLit ("project information document".toList) l with
    | some rest => boundaryAfter rest
    | none => false

/-- Alternative `\bpid\b` of the PID pattern. -/
def pidAlt2 (prev : Option Char) (l : List Char) : Bool :=
  boundaryBefore prev &&
    match stripLit ("pid".toList) l with
    | some rest => boundaryAfter rest
    | none => false

/-- Alternative `pid\s*\/\s*isds` of the PID pattern (no word
boundaries; `\s*` is greedy and safe because neither `/` nor `i` is
whitespace). -/
def pidAlt3 (l : List Char) : Bool :=
  match stripLit ("pid".toList) l with
  | some r1 =>
    match r1.dropWhile isSpaceCh with
    | '/' :: r2 =>
      match stripLit ("isds".toList) (r2.dropWhile isSpaceCh) with
      | some _ => true
      | none => false
    | _ => false
  | none => false

/-- Alternative `(concept|appraisal)\s*stage` of the PID pattern. -/
def pidAlt4 (l : List Char) : Bool :=
  (match stripLit ("concept".toList) l with
   | some r => (stripLit ("stage".toList) (r.dropWhile isSpaceCh)).isSome
   | none => false) ||
  (match stripLit ("appraisal".toList) l with
   | some r => (stripLit ("stage".toList) (r.dropWhile isSpaceCh)).isSome
   | none => false)

/-- The group-and-tail part `(project|program)\s+appraisal\s+document\b`
of the first PAD alternative (without the leading boundary). -/
def padAlt1Core (l : List Char) : Bool :=
  match
    (match stripLit ("project".toList) l with
     | some r => some r
     | none => stripLit ("program".toList) l) with
  | some r1 =>
    match oneOrMoreSpaces r1 with
    | some r2 =>
      match stripLit ("appraisal".toList) r2 with
      | some r3 =>
        match oneOrMoreSpaces r3 with
        | some r4 =>
          match stripLit ("document".toList) r4 with
          | some r5 => boundaryAfter r5
          | none => false
        | none => false
      | none => false
    | none => false
  | none => false

/-- Alternative `\bpad\b` of the PAD pattern. -/
def padAlt2 (prev : Option Char) (l : List Char) : Bool :=
  boundaryBefore prev &&
    match stripLit ("pad".toList) l with
    | some rest => boundaryAfter rest
    | none => false

/-- Scan every position of the input, carrying the preceding character
for word-boundary tests, and ask whether the pattern matches there:
this is `re.search` truthiness. -/
def searchFrom (tryHere : Option Char → List Char → Bool) : Option Char → List Char → Bool
  | prev, [] => tryHere prev []
  | prev, c :: rest => tryHere prev (c :: rest) || searchFrom tryHere (some c) rest

/-- `re.search` of the compiled `pid_pattern`
`(?i)\bproject information document\b|\bpid\b|pid\s*\/\s*isds|(concept|appraisal)\s*stage`
on an already lower-cased string. -/
def pidSearch (s : String) : Bool :=
  searchFrom (fun prev l => pidAlt1 prev l || pidAlt2 prev l || pidAlt3 l || pidAlt4 l)
    none s.toList

/-- `re.search` of the compiled `pad_pattern`
`(?i)\b(project|program)\s+appraisal\s+document\b|\bpad\b`
on an already lower-cased string. -/
def padSearch (s : String) : Bool :=
  searchFrom (fun prev l => (boundaryBefore prev && padAlt1Core l) || padAlt2 prev l)
    none s.toList

/-- Lower-casing of a string, `str.lower` on the ASCII fragment. -/
def lowerStr (s : String) : String := String.mk (s.data.map Char.toLower)

/-- The `docna` field of a raw record: either the flat string of the old
API shape or the nested dict of the new shape, modelled by its optional
inner `docna` string (`none` when the `'0'`/`'docna'` keys are absent). -/
inductive DocnaField
  | flatName (s : String)
  | nested (inner : Option String)
  deriving DecidableEq, Repr

/-- A raw document record as returned by the WDS API; every field is
optional because the source reads each one with a `dict.get` default. -/
structure Doc where
  docna : Option DocnaField := none
  docty : Option String := none
  docdt : Option String := none
  lang : Option String := none
  repnb : Option String := none
  url : Option String := none
  pdfurl : Option String := none
  deriving DecidableEq, Repr

/-- Resolved document type. -/
inductive DocType
  | PID
  | PAD
  deriving DecidableEq, Repr

/-- The lower-cased `docty` field read with default `''`. -/
def doctyLower (d : Doc) : String := lowerStr (d.docty.getD "")

/-- The lower-cased display name:
`doc.get('docna','')` for the flat shape, and for the nested shape the
inner string when present (else `''`), as in the source. -/
def docnaLower (d : Doc) : String :=
  match d.docna.getD (DocnaField.flatName "") with
  | .flatName s => lowerStr s
  | .nested (some s) => lowerStr s
  | .nested none => ""

/-- `WorldBankDownloader.detect_document_type`: PID pattern against both
fields first, then PAD pattern against both fields, else `None`. -/
def detectDocumentType (d : Doc) : Option DocType :=
  if pidSearch (doctyLower d) || pidSearch (docnaLower d) then some .PID
  else if padSearch (doctyLower d) || padSearch (docnaLower d) then some .PAD
  else none

/-- The two per-type buckets produced by `filter_documents`. -/
structure Filtered where
  pid : List Doc
  pad : List Doc
  deriving DecidableEq, Repr

/-- `WorldBankDownloader.filter_documents`: single pass appending each
document to the bucket of its detected type, dropping unclassified ones. -/
def filterDocuments (docs : List Doc) : Filtered :=
  ⟨docs.filter (fun d => detectDocumentType d == some DocType.PID),
   docs.filter (fun d => detectDocumentType d == some DocType.PAD)⟩

/-- The English test `doc.get('lang', '').lower() == 'en'`. -/
def isEnglish (d : Doc) : Bool := lowerStr (d.lang.getD "") == "en"

/-- `WorldBankDownloader.select_documents_by_language`. -/
def selectDocumentsByLanguage (languages : String) (docs : List Doc) : List Doc :=
  if languages == "all" then docs
  else
    match docs.filter isEnglish with
    | e :: es => e :: es
    | [] =>
      match docs with
      | d :: _ => [d]
      | [] => []

/-- The grouping key `doc.get('lang', 'xx').lower()`. -/
def langOf (d : Doc) : String := lowerStr (d.lang.getD "xx")

/-- The sort key `x.get('docdt', '0000-00-00')`. -/
def dateKey (d : Doc) : String := d.docdt.getD "0000-00-00"

/-- Code-point lexicographic order on character lists: Python's `<=` on
strings, executably. -/
def leCh : List Char → List Char → Bool
  | [], _ => true
  | _ :: _, [] => false
  | a :: as, b :: bs =>
    if a.toNat < b.toNat then true
    else if b.toNat < a.toNat then false
    else leCh as bs

/-- Python's `<=` on strings (code-point lexicographic). -/
def strLe (s t : String) : Bool := leCh s.data t.data

/-- Keys of the `by_lang` dict in insertion order (Python dicts preserve
it); the recursion carries the set of keys already seen. -/
def distinctLangsGo (seen : List String) : List Doc → List String
  | [] => []
  | d :: rest =>
    if langOf d ∈ seen then distinctLangsGo seen rest
    else langOf d :: distinctLangsGo (langOf d :: seen) rest

/-- The language groups' keys in first-occurrence order. -/
def distinctLangs (docs : List Doc) : List String := distinctLangsGo [] docs

/-- Insert into a list already sorted by descending date key, after the
existing entries with greater-or-equal key: together with
`sortDescByDate` this computes the stable descending sort of Python's
`sorted(..., key=..., reverse=True)`. -/
def insertDescByDate (a : Doc) : List Doc → List Doc
  | [] => [a]
  | b :: l => if strLe (dateKey b) (dateKey a) then a :: b :: l else b :: insertDescByDate a l

/-- Stable descending sort by date key, the model of
`sorted(lang_docs, key=lambda x: x.get('docdt', '0000-00-00'), reverse=True)`. -/
def sortDescByDate : List Doc → List Doc
  | [] => []
  | a :: l => insertDescByDate a (sortDescByDate l)

/-- `WorldBankDownloader.select_latest_documents`: group by language tag
and keep the head of the descending-by-date stable sort of each group. -/
def selectLatestDocuments (latestOnly : Bool) (docs : List Doc) : List Doc :=
  if !latestOnly then docs
  else
    (distinctLangs docs).filterMap
      (fun k => (sortDescByDate (docs.filter (fun d => langOf d == k))).head?)

/-- The first element of a list attaining the maximal date key (ties
resolved to the earliest occurrence). Stated from the specification's
tie-break words, for comparison with the head of the stable sort. -/
def firstMaxByDate : List Doc → Option Doc
  | [] => none
  | a :: l =>
    match firstMaxByDate l with
    | none => some a
    | some m => if strLe (dateKey m) (dateKey a) then some a else some m

/-- Characters kept by `re.sub(r'[^\w\s-]', '', ...)`. -/
def isKeptChar (c : Char) : Bool := isWordChar c || isSpaceCh c || c = '-'

/-- Replace each maximal run of whitespace/hyphen characters with a
single hyphen (`re.sub(r'[-\s]+', '-', ...)`); the flag records whether
the scan is inside such a run. -/
def collapseDashRuns : Bool → List Char → List Char
  | _, [] => []
  | inRun, c :: rest =>
    if isSpaceCh c || c = '-' then
      if inRun then collapseDashRuns true rest
      else '-' :: collapseDashRuns true rest
    else c :: collapseDashRuns false rest

/-- Python `text.rstrip('-')`. -/
def rstripDashes (l : List Char) : List Char := l.rdropWhile (fun c => c == '-')

/-- Python `text.strip('-')`. -/
def stripDashes (l : List Char) : List Char := rstripDashes (l.dropWhile (fun c => c == '-'))

/-- `WorldBankDownloader.slug` on the character list: lower-case, drop
characters outside `[\w\s-]`, collapse `[-\s]+` runs to a single
hyphen, strip hyphens at both ends, and truncate to 120 characters
re-stripping a trailing hyphen. NFKD normalization is the identity on
the modelled ASCII fragment. -/
def slugChars (l : List Char) : List Char :=
  let lowered := l.map Char.toLower
  let kept := lowered.filter isKeptChar
  let collapsed := collapseDashRuns false kept
  let stripped := stripDashes collapsed
  if stripped.length > 120 then rstripDashes (stripped.take 120) else stripped

/-- `WorldBankDownloader.slug` (with the default `max_length = 120`,
the only length the source ever uses). -/
def slug (s : String) : String := String.mk (slugChars s.data)

/-- Replace each maximal run of non-alphanumeric characters with a
single hyphen. Stated from the specification's words (not the source),
for comparison with `collapseDashRuns`. -/
def collapseNonAlnumRuns : Bool → List Char → List Char
  | _, [] => []
  | inRun, c :: rest =>
    if !c.isAlphanum then
      if inRun then collapseNonAlnumRuns true rest
      else '-' :: collapseNonAlnumRuns true rest
    else c :: collapseNonAlnumRuns false rest

/-- The slug transformation as the specification claims it: lower-case,
replace every run of non-alphanumeric characters with a single hyphen,
trim hyphens, truncate to 120 without a trailing hyphen. Stated from
the claim's words, for comparison with `slug`. -/
def slugSpec (s : String) : String :=
  let lowered := s.data.map Char.toLower
  let collapsed := collapseNonAlnumRuns false lowered
  let stripped := stripDashes collapsed
  String.mk (if stripped.length > 120 then rstripDashes (stripped.take 120) else stripped)

/-- The display name as read by `generate_filename` and
`_download_document` (default `'Unknown'`, nested shape unwrapped,
not lower-cased). -/
def extractDocna (d : Doc) : String :=
  match d.docna.getD (DocnaField.flatName "Unknown") with
  | .flatName s => s
  | .nested (some s) => s
  | .nested none => "Unknown"

/-- `doc_date.split('T')[0]` applied when the date contains `'T'`. -/
def splitDateOnT (s : String) : String :=
  if s.data.contains 'T' then String.mk (s.data.takeWhile (fun c => c ≠ 'T')) else s

/-- `WorldBankDownloader.generate_filename`:
`{date}_{repnb}_{slug(docna)}_{lang}.pdf` (the `doc_type` argument is
unused, as in the source). -/
def generateFilename (d : Doc) (docType : String) : String :=
  let docDate := splitDateOnT (d.docdt.getD "0000-00-00")
  let repnb := d.repnb.getD "NO-REPNB"
  let docna := extractDocna d
  let lang := lowerStr (d.lang.getD "xx")
  docDate ++ "_" ++ repnb ++ "_" ++ slug docna ++ "_" ++ lang ++ ".pdf"

/-- The run configuration held by the `WorldBankDownloader` object. -/
structure Config where
  out_dir : String
  languages : String
  latest_only : Bool
  dry_run : Bool
  deriving DecidableEq, Repr

/-- `WorldBankDownloader._get_document_path`:
`{out_dir}/{country}/{project_id}_{slug(project_name)}/{doc_type}/{filename}`. -/
def getDocumentPath (cfg : Config) (d : Doc) (docType projectId country projectName : String) : String :=
  cfg.out_dir ++ "/" ++ country ++ "/" ++ projectId ++ "_" ++ slug projectName ++ "/" ++
    docType ++ "/" ++ generateFilename d docType

/-- The filesystem as a map from path to byte contents. -/
abbrev FileSys := String → Option (List Nat)

/-- `WorldBankDownloader.get_file_hash` (`sha` is the external
`hashlib.sha256` primitive; a missing file hashes to `""`). -/
def getFileHash (sha : List Nat → String) (fs : FileSys) (p : String) : String :=
  match fs p with
  | none => ""
  | some bytes => sha bytes

/-- The `(success, status, sha256)` triple returned by the download
functions. -/
structure DlResult where
  success : Bool
  status : String
  sha256 : String
  deriving DecidableEq, Repr

/-- Result of `download_pdf`: the triple, the filesystem after the call,
and whether a network request was issued (instrumentation). -/
structure PdfOut where
  result : DlResult
  fs : FileSys
  netCalled : Bool

/-- `WorldBankDownloader.download_pdf`: dry-run short-circuit, then the
existing-file idempotency check, then a streaming GET (`net url = none`
models a non-2xx response or a transport error raised before the file
is opened; `some body` a successfully streamed body which is written to
`filePath` and then size-checked). -/
def downloadPdf (sha : List Nat → String) (dryRun : Bool) (net : String → Option (List Nat))
    (fs : FileSys) (url : String) (filePath : String) : PdfOut :=
  if dryRun then ⟨⟨true, "dry_run", ""⟩, fs, false⟩
  else if (fs filePath).isSome then
    ⟨⟨true, "skipped_existing", getFileHash sha fs filePath⟩, fs, false⟩
  else
    match net url with
    | none => ⟨⟨false, "failed", ""⟩, fs, true⟩
    | some body =>
      let fs2 : FileSys := fun p => if p = filePath then some body else fs p
      if body.length > 0 then ⟨⟨true, "downloaded", getFileHash sha fs2 filePath⟩, fs2, true⟩
      else ⟨⟨false, "failed", ""⟩, fs2, true⟩

/-- One manifest row, with the exact source field set. -/
structure ManifestRow where
  country : String
  project_id : String
  project_title : String
  doc_type : String
  doc_date : String
  repnb : String
  language : String
  source_url : String
  pdf_url : String
  saved_path : String
  status : String
  sha256 : String
  deriving DecidableEq, Repr

/-- Substring test at the current position. -/
def hasLitAt (pat : List Char) (l : List Char) : Bool := (stripLit pat l).isSome

/-- Substring containment (`'pdf' in url.lower()`), scanning positions. -/
def containsList (pat : List Char) : List Char → Bool
  | [] => hasLitAt pat []
  | c :: rest => hasLitAt pat (c :: rest) || containsList pat rest

/-- Python's `in` on strings. -/
def containsSubstr (s pat : String) : Bool := containsList pat.data s.data

/-- The download URL resolution of `_download_document`: `pdfurl` if
truthy, else `url` when truthy and containing `'pdf'` case-insensitively,
else none (document skipped with only a warning). -/
def determinePdfUrl (d : Doc) : Option String :=
  let pdfurl := d.pdfurl.getD ""
  if pdfurl != "" then some pdfurl
  else
    let url := d.url.getD ""
    if url != "" && containsSubstr (lowerStr url) "pdf" then some url else none

/-- Result of `_download_document`: triple, new filesystem, whether the
network was touched, and the manifest row appended (none when no PDF
URL could be determined, since the source returns before appending). -/
structure DocOut where
  result : DlResult
  fs : FileSys
  netCalled : Bool
  row : Option ManifestRow

/-- `WorldBankDownloader._download_document`. -/
def downloadDocument (cfg : Config) (sha : List Nat → String) (net : String → Option (List Nat))
    (d : Doc) (docType projectId country projectName : String) (fs : FileSys) : DocOut :=
  let filePath := getDocumentPath cfg d docType projectId country projectName
  match determinePdfUrl d with
  | none => ⟨⟨false, "failed", ""⟩, fs, false, none⟩
  | some pdfUrl =>
    let out := downloadPdf sha cfg.dry_run net fs pdfUrl filePath
    let row : ManifestRow :=
      { country := country, project_id := projectId, project_title := projectName,
        doc_type := docType, doc_date := splitDateOnT (d.docdt.getD "0000-00-00"),
        repnb := d.repnb.getD "NO-REPNB", language := d.lang.getD "xx",
        source_url := d.url.getD "", pdf_url := pdfUrl,
        saved_path := filePath, status := out.result.status, sha256 := out.result.sha256 }
    ⟨out.result, out.fs, out.netCalled, some row⟩

/-- The run counters `downloads_successful` / `downloads_skipped` /
`downloads_failed`. -/
structure Stats where
  successful : Nat
  skipped : Nat
  failed : Nat
  deriving DecidableEq, Repr

/-- Pointwise sum of counters. -/
def Stats.add (a b : Stats) : Stats :=
  ⟨a.successful + b.successful, a.skipped + b.skipped, a.failed + b.failed⟩

/-- The counter bump of `process_project` for one download result (note
the source counts a `dry_run` status as failed). -/
def statOf (r : DlResult) : Stats :=
  if r.success && r.status == "downloaded" then ⟨1, 0, 0⟩
  else if r.success && r.status == "skipped_existing" then ⟨0, 1, 0⟩
  else ⟨0, 0, 1⟩

/-- State accumulated by the per-document loop of `process_project`. -/
structure LoopOut where
  fs : FileSys
  rows : List ManifestRow
  stats : Stats
  paths : List String

/-- The `for doc in selected_docs` loop body of `process_project`: each
document is downloaded and its storage path appended unconditionally. -/
def processSelected (cfg : Config) (sha : List Nat → String) (net : String → Option (List Nat))
    (docType projectId country projectName : String) : List Doc → FileSys → LoopOut
  | [], fs => ⟨fs, [], ⟨0, 0, 0⟩, []⟩
  | d :: rest, fs =>
    let out := downloadDocument cfg sha net d docType projectId country projectName fs
    let tail := processSelected cfg sha net docType projectId country projectName rest out.fs
    ⟨tail.fs, out.row.toList ++ tail.rows, (statOf out.result).add tail.stats,
      getDocumentPath cfg d docType projectId country projectName :: tail.paths⟩

/-- One summary row, with the exact source field set. -/
structure ProjectSummary where
  country : String
  project_id : String
  project_title : String
  has_pid : Bool
  has_pad : Bool
  pid_count : Nat
  pad_count : Nat
  pid_paths : String
  pad_paths : String
  deriving DecidableEq, Repr

/-- `WorldBankDownloader._create_project_summary`. -/
def createProjectSummary (projectId country projectName : String) (hasPid hasPad : Bool)
    (pidCount padCount : Nat) (pidPaths padPaths : List String) : ProjectSummary :=
  ⟨country, projectId, projectName, hasPid, hasPad, pidCount, padCount,
    String.intercalate ";" pidPaths, String.intercalate ";" padPaths⟩

/-- One WDS API response body: `{}` (falsy), the old shape
`{'response': {'docs': [...]}}`, the new shape `{'documents': {...}}`
(modelled by its value list in insertion order), or a truthy dict with
neither key. -/
inductive WdsResponse
  | empty
  | oldFormat (docs : List Doc)
  | newFormat (docs : List Doc)
  | otherDict
  deriving DecidableEq, Repr

/-- `WorldBankDownloader.get_project_documents`, instrumented with the
list of offsets actually requested; `fuel` bounds the source's unbounded
`while True` loop (every theorem assumes enough fuel for the mocked
responses, which the source's termination argument provides). -/
def getProjectDocumentsGo (api : Nat → WdsResponse) : Nat → Nat → List Doc → List Nat → List Doc × List Nat
  | 0, _, acc, offs => (acc, offs)
  | fuel + 1, offset, acc, offs =>
    match api offset with
    | .empty => (acc, offs ++ [offset])
    | .otherDict => (acc, offs ++ [offset])
    | .oldFormat docs | .newFormat docs =>
      if docs.isEmpty then (acc, offs ++ [offset])
      else if docs.length < 200 then (acc ++ docs, offs ++ [offset])
      else getProjectDocumentsGo api fuel (offset + 200) (acc ++ docs) (offs ++ [offset])

/-- Fetch all documents of a project: pages of size 200 starting at
offset 0, accumulating and stopping on the first short page. -/
def getProjectDocuments (api : Nat → WdsResponse) (fuel : Nat) : List Doc × List Nat :=
  getProjectDocumentsGo api fuel 0 [] []

/-- Outcome of one HTTP attempt inside `call_wds_api`: a response with a
status code (the body is read only when the code is 200), or a raised
`requests.RequestException`. -/
inductive AttemptOutcome
  | response (code : Nat) (body : WdsResponse)
  | raised
  deriving DecidableEq, Repr

/-- The `for attempt in range(max_retries)` loop of `call_wds_api`,
instrumented with the number of attempts made and the backoff delays
slept (`base_delay * 2 ** attempt` with `base_delay = 1`). -/
def callWdsApiGo (outcome : Nat → AttemptOutcome) : List Nat → Nat → List Nat → WdsResponse × Nat × List Nat
  | [], made, delays => (.empty, made, delays)
  | a :: rest, made, delays =>
    match outcome a with
    | .response code body =>
      if code = 200 then (body, made + 1, delays)
      else if code = 429 then callWdsApiGo outcome rest (made + 1) (delays ++ [2 ^ a])
      else if 500 ≤ code then callWdsApiGo outcome rest (made + 1) (delays ++ [2 ^ a])
      else (.empty, made + 1, delays)
    | .raised => callWdsApiGo outcome rest (made + 1) (delays ++ [2 ^ a])

/-- `WorldBankDownloader.call_wds_api` with `max_retries = 3`: returns
the parsed body on HTTP 200, retries on 429 / 5xx / raised exceptions,
returns `{}` immediately on any other status, and returns `{}` after
exhausting the three attempts. -/
def callWdsApi (outcome : Nat → AttemptOutcome) : WdsResponse × Nat × List Nat :=
  callWdsApiGo outcome (List.range 3) 0 []

/-- The attempt outcomes the source retries: HTTP 429, any 5xx, or a
raised request exception. -/
def RetryableOutcome : AttemptOutcome → Prop
  | .response code _ => code = 429 ∨ 500 ≤ code
  | .raised => True

/-- The language-then-recency selection applied per document type inside
`process_project` (lines 340-344 of the source). -/
def selectionPipeline (cfg : Config) (docs : List Doc) : List Doc :=
  let sel0 := selectDocumentsByLanguage cfg.languages docs
  if cfg.latest_only then selectLatestDocuments cfg.latest_only sel0 else sel0

/-- Result of `process_project`: the summary row, the filesystem after
the project, the manifest rows appended, and the counter deltas. -/
structure ProjectOut where
  summary : ProjectSummary
  fs : FileSys
  rows : List ManifestRow
  stats : Stats

/-- `WorldBankDownloader.process_project`: fetch, classify, then per
type (PID first, then PAD, the dict insertion order) select and
download, and build the summary from the full classified buckets. -/
def processProject (cfg : Config) (sha : List Nat → String) (api : Nat → WdsResponse)
    (fuel : Nat) (net : String → Option (List Nat)) (fs : FileSys)
    (projectId country projectName : String) : ProjectOut :=
  let docs := (getProjectDocuments api fuel).1
  if docs.isEmpty then
    ⟨createProjectSummary projectId country projectName false false 0 0 [] [], fs, [], ⟨0, 0, 0⟩⟩
  else
    let filtered := filterDocuments docs
    let pidOut :=
      if filtered.pid.isEmpty then (⟨fs, [], ⟨0, 0, 0⟩, []⟩ : LoopOut)
      else processSelected cfg sha net "PID" projectId country projectName
        (selectionPipeline cfg filtered.pid) fs
    let padOut :=
      if filtered.pad.isEmpty then (⟨pidOut.fs, [], ⟨0, 0, 0⟩, []⟩ : LoopOut)
      else processSelected cfg sha net "PAD" projectId country projectName
        (selectionPipeline cfg filtered.pad) pidOut.fs
    ⟨createProjectSummary projectId country projectName
        (decide (filtered.pid.length > 0)) (decide (filtered.pad.length > 0))
        filtered.pid.length filtered.pad.length pidOut.paths padOut.paths,
      padOut.fs, pidOut.rows ++ padOut.rows, pidOut.stats.add padOut.stats⟩

/-- The page-level API seen by `get_project_documents` when each page
request goes through `call_wds_api` with per-offset attempt outcomes. -/
def apiOf (outcomes : Nat → Nat → AttemptOutcome) : Nat → WdsResponse :=
  fun offset => (callWdsApi (outcomes offset)).1

/-- Membership test used to state the recency property: `x` carries a
date at least as late as every element of `l`. -/
def isLatestIn (l : List Doc) (x : Doc) : Bool :=
  l.all (fun y => strLe (dateKey y) (dateKey x))

/-- Mocked API of the pagination test: pages of 200, 200 and 47
records at offsets 0, 200 and 400. -/
def mockPagesApi : Nat → WdsResponse := fun off =>
  if off = 0 then WdsResponse.oldFormat (List.replicate 200 { docty := some "PID" })
  else if off = 200 then WdsResponse.oldFormat (List.replicate 200 { docty := some "PID" })
  else if off = 400 then WdsResponse.oldFormat (List.replicate 47 { docty := some "PID" })
  else WdsResponse.empty

/-- Mocked attempt outcomes: every attempt yields HTTP 404. -/
def mock404 : Nat → AttemptOutcome := fun a => .response 404 .empty

/-- Mocked attempt outcomes: every attempt at every offset yields
HTTP 503. -/
def mock503 : Nat → Nat → AttemptOutcome := fun off a => .response 503 .empty

/-- A filesystem holding exactly one file. -/
def oneFileFs : FileSys := fun p => if p = "d.pdf" then some [7] else none

/-- The empty filesystem. -/
def emptyFs : FileSys := fun _ => none

/-- A network whose every response succeeds with an empty body. -/
def emptyBodyNet : String → Option (List Nat) := fun _ => some []

/-- A classified PID document whose download URL resolves but whose
transfer will fail. -/
def failDoc : Doc :=
  { docna := some (.flatName "project information document"),
    docty := some "Project Information Document", docdt := some "2020-01-01",
    lang := some "en", repnb := some "R1", url := some "",
    pdfurl := some "http://x/a.pdf" }

/-- Mocked API returning a single one-document page. -/
def failApi : Nat → WdsResponse := fun off =>
  if off = 0 then .oldFormat [failDoc] else .empty

/-- Two German-tagged PID documents (for the count-vs-selection gap). -/
def deDoc1 : Doc :=
  { docty := some "Project Information Document", docdt := some "2020-01-01",
    lang := some "de" }

/-- See `deDoc1`. -/
def deDoc2 : Doc :=
  { docty := some "Project Information Document", docdt := some "2021-06-15",
    lang := some "de" }

/-- A document whose declared type matches PAD while its display name
matches PID (the precedence test of the specification). -/
def padPidDoc : Doc :=
  { docna := some (.flatName "Review of PID"), docty := some "Project Appraisal Document" }

/-- A document matching neither heuristic. -/
def planDoc : Doc := { docty := some "Procurement Plan" }

/-- A German-tagged document. -/
def deLangDoc : Doc := { lang := some "de" }

/-! ### Order properties of the code-point comparison -/

theorem leCh_refl (l : List Char) : leCh l l = true := by
  induction l with
  | nil => rfl
  | cons a as ih => simp [leCh, ih]

theorem leCh_total (l m : List Char) : leCh l m = true ∨ leCh m l = true := by
  induction l generalizing m with
  | nil => exact Or.inl rfl
  | cons a as ih =>
    cases m with
    | nil => exact Or.inr rfl
    | cons b bs =>
      rcases Nat.lt_trichotomy a.toNat b.toNat with h | h | h
      · left; simp [leCh, h]
      · have h2 : ¬ a.toNat < b.toNat := by omega
        have h3 : ¬ b.toNat < a.toNat := by omega
        rcases ih bs with h4 | h4
        · left; simp [leCh, h2, h3, h4]
        · right; simp [leCh, h2, h3, h4]
      · right; simp [leCh, h]

theorem leCh_trans (l m n : List Char) (h1 : leCh l m = true) (h2 : leCh m n = true) :
    leCh l n = true := by
  induction l generalizing m n with
  | nil => rfl
  | cons a as ih =>
    cases m with
    | nil => simp [leCh] at h1
    | cons b bs =>
      cases n with
      | nil => simp [leCh] at h2
      | cons c cs =>
        simp only [leCh] at h1 h2 ⊢
        rcases Nat.lt_trichotomy a.toNat b.toNat with hab | hab | hab
        · rcases Nat.lt_trichotomy b.toNat c.toNat with hbc | hbc | hbc
          · have hac : a.toNat < c.toNat := by omega
            simp [hac]
          · have hac : a.toNat < c.toNat := by omega
            simp [hac]
          · rw [if_neg (by omega), if_pos hbc] at h2
            exact absurd h2 (by simp)
        · rcases Nat.lt_trichotomy b.toNat c.toNat with hbc | hbc | hbc
          · have hac : a.toNat < c.toNat := by omega
            simp [hac]
          · rw [if_neg (by omega), if_neg (by omega)] at h1
            rw [if_neg (by omega), if_neg (by omega)] at h2
            rw [if_neg (by omega), if_neg (by omega)]
            exact ih bs cs h1 h2
          · rw [if_neg (by omega), if_pos hbc] at h2
            exact absurd h2 (by simp)
        · rw [if_neg (by omega), if_pos hab] at h1
          exact absurd h1 (by simp)

theorem strLe_refl (s : String) : strLe s s = true := leCh_refl s.data

theorem strLe_total (s t : String) : strLe s t = true ∨ strLe t s = true :=
  leCh_total s.data t.data

theorem strLe_trans {s t u : String} (h1 : strLe s t = true) (h2 : strLe t u = true) :
    strLe s u = true := leCh_trans s.data t.data u.data h1 h2

/-! ### The head of the stable descending sort is the first maximum -/

theorem firstMaxByDate_eq_none (l : List Doc) : firstMaxByDate l = none ↔ l = [] := by
  cases l with
  | nil => simp [firstMaxByDate]
  | cons a t =>
    simp only [firstMaxByDate]
    cases firstMaxByDate t <;> simp
    split <;> simp

theorem firstMaxByDate_mem_le (l : List Doc) (m : Doc) (h : firstMaxByDate l = some m) :
    m ∈ l ∧ ∀ x ∈ l, strLe (dateKey x) (dateKey m) = true := by
  induction l generalizing m with
  | nil => simp [firstMaxByDate] at h
  | cons a t ih =>
    cases ht : firstMaxByDate t with
    | none =>
      simp only [firstMaxByDate, ht] at h
      obtain rfl : a = m := by simpa using h
      obtain rfl : t = [] := (firstMaxByDate_eq_none t).mp ht
      exact ⟨List.mem_singleton.mpr rfl, by simp [strLe_refl]⟩
    | some m0 =>
      simp only [firstMaxByDate, ht] at h
      obtain ⟨hm0, hle⟩ := ih m0 ht
      by_cases hc : strLe (dateKey m0) (dateKey a) = true
      · rw [if_pos hc] at h
        obtain rfl : a = m := by simpa using h
        refine ⟨List.mem_cons_self a t, ?_⟩
        intro x hx
        rcases List.mem_cons.mp hx with rfl | hx
        · exact strLe_refl _
        · exact strLe_trans (hle x hx) hc
      · rw [if_neg hc] at h
        replace h : m0 = m := by simpa using h
        rw [← h]
        refine ⟨List.mem_cons_of_mem a hm0, ?_⟩
        intro x hx
        rcases List.mem_cons.mp hx with rfl | hx
        · rcases strLe_total (dateKey x) (dateKey m0) with h4 | h4
          · exact h4
          · exact absurd h4 hc
        · exact hle x hx

theorem head?_insertDescByDate (a : Doc) (s : List Doc) :
    (insertDescByDate a s).head? =
      some (match s.head? with
            | none => a
            | some b => if strLe (dateKey b) (dateKey a) then a else b) := by
  cases s with
  | nil => rfl
  | cons b t =>
    by_cases hc : strLe (dateKey b) (dateKey a) = true <;> simp [insertDescByDate, hc]

theorem head?_sortDescByDate (l : List Doc) : (sortDescByDate l).head? = firstMaxByDate l := by
  induction l with
  | nil => rfl
  | cons a t ih =>
    simp only [sortDescByDate]
    rw [head?_insertDescByDate, ih]
    simp only [firstMaxByDate]
    cases firstMaxByDate t with
    | none => simp
    | some v => by_cases hc : strLe (dateKey v) (dateKey a) = true <;> simp [hc]

theorem find?_congrOn (p q : Doc → Bool) (l : List Doc) (h : ∀ x ∈ l, p x = q x) :
    l.find? p = l.find? q := by
  induction l with
  | nil => rfl
  | cons a t ih =>
    have ha := h a (List.mem_cons_self a t)
    simp only [List.find?, ha]
    cases q a with
    | true => rfl
    | false => exact ih (fun x hx => h x (List.mem_cons_of_mem a hx))

theorem firstMaxByDate_eq_find? (l : List Doc) : firstMaxByDate l = l.find? (isLatestIn l) := by
  induction l with
  | nil => rfl
  | cons a t ih =>
    cases ht : firstMaxByDate t with
    | none =>
      obtain rfl : t = [] := (firstMaxByDate_eq_none t).mp ht
      simp [firstMaxByDate, List.find?, isLatestIn, strLe_refl]
    | some m =>
      simp only [firstMaxByDate, ht]
      obtain ⟨hm, hle⟩ := firstMaxByDate_mem_le t m ht
      by_cases hc : strLe (dateKey m) (dateKey a) = true
      · rw [if_pos hc]
        have hp : isLatestIn (a :: t) a = true := by
          simp only [isLatestIn, List.all_eq_true]
          intro y hy
          rcases List.mem_cons.mp hy with rfl | hy
          · exact strLe_refl _
          · exact strLe_trans (hle y hy) hc
        simp [List.find?, hp]
      · rw [if_neg hc]
        have hma : strLe (dateKey a) (dateKey m) = true := by
          rcases strLe_total (dateKey a) (dateKey m) with h4 | h4
          · exact h4
          · exact absurd h4 hc
        have ha : isLatestIn (a :: t) a = false := by
          cases h : isLatestIn (a :: t) a with
          | false => rfl
          | true =>
            simp only [isLatestIn] at h
            have h5 := List.all_eq_true.mp h m (List.mem_cons_of_mem a hm)
            exact absurd h5 hc
        have hcongr : t.find? (isLatestIn (a :: t)) = t.find? (isLatestIn t) := by
          apply find?_congrOn
          intro x hx
          have hsplit : isLatestIn (a :: t) x =
              (strLe (dateKey a) (dateKey x) && isLatestIn t x) := by
            simp [isLatestIn]
          rw [hsplit]
          cases hx2 : isLatestIn t x with
          | false => simp
          | true =>
            have hx3 : ∀ y ∈ t, strLe (dateKey y) (dateKey x) = true := by
              simp only [isLatestIn] at hx2
              exact List.all_eq_true.mp hx2
            simp [strLe_trans hma (hx3 m hm)]
        simp only [List.find?, ha, hcongr]
        rw [← ih, ht]

/-! ### Slug structure -/

/-- The first character emitted by the collapse scan while inside a run
is never a hyphen. -/
theorem collapse_true_head (l : List Char) :
    ∀ c, (collapseDashRuns true l).head? = some c → ¬(c = '-') := by
  induction l with
  | nil => intro c h; simp [collapseDashRuns] at h
  | cons x rest ih =>
    intro c h
    by_cases hx : (isSpaceCh x || x = '-') = true
    · simp only [collapseDashRuns, hx, if_true] at h
      exact ih c h
    · simp only [collapseDashRuns, hx, Bool.false_eq_true, if_false, List.head?_cons,
        Option.some.injEq] at h
      subst h
      intro hcd
      simp [hcd] at hx

/-- No two adjacent hyphens in the output of the collapse scan. -/
theorem collapse_chain (l : List Char) :
    ∀ b, List.Chain' (fun a c : Char => ¬(a = '-' ∧ c = '-')) (collapseDashRuns b l) := by
  induction l with
  | nil => intro b; simp [collapseDashRuns]
  | cons x rest ih =>
    intro b
    by_cases hx : (isSpaceCh x || x = '-') = true
    · cases b with
      | true =>
        simp only [collapseDashRuns, hx, if_true]
        exact ih true
      | false =>
        simp only [collapseDashRuns, hx, if_true, Bool.false_eq_true, if_false]
        refine List.chain'_cons'.mpr ⟨?_, ih true⟩
        intro y hy
        intro hcon
        exact collapse_true_head rest y hy hcon.2
    · simp only [collapseDashRuns, hx, Bool.false_eq_true, if_false]
      refine List.chain'_cons'.mpr ⟨?_, ih false⟩
      intro y hy
      intro hcon
      rw [hcon.1] at hx
      simp at hx

/-- Characters emitted by the collapse scan are hyphens or non-run
input characters. -/
theorem collapse_mem (l : List Char) :
    ∀ b c, c ∈ collapseDashRuns b l →
      c = '-' ∨ (c ∈ l ∧ (isSpaceCh c || c = '-') = false) := by
  induction l with
  | nil => intro b c h; simp [collapseDashRuns] at h
  | cons x rest ih =>
    intro b c h
    by_cases hx : (isSpaceCh x || x = '-') = true
    · cases b with
      | true =>
        simp only [collapseDashRuns, hx, if_true] at h
        rcases ih true c h with h1 | h1
        · exact Or.inl h1
        · exact Or.inr ⟨List.mem_cons_of_mem x h1.1, h1.2⟩
      | false =>
        simp only [collapseDashRuns, hx, if_true, Bool.false_eq_true, if_false,
          List.mem_cons] at h
        rcases h with rfl | h
        · exact Or.inl rfl
        · rcases ih true c h with h1 | h1
          · exact Or.inl h1
          · exact Or.inr ⟨List.mem_cons_of_mem x h1.1, h1.2⟩
    · simp only [collapseDashRuns, hx, Bool.false_eq_true, if_false, List.mem_cons] at h
      rcases h with rfl | h
      · exact Or.inr ⟨List.mem_cons_self c rest, by simpa using hx⟩
      · rcases ih false c h with h1 | h1
        · exact Or.inl h1
        · exact Or.inr ⟨List.mem_cons_of_mem x h1.1, h1.2⟩

/-- The head surviving `dropWhile (· == '-')` is not a hyphen. -/
theorem head?_dropDash (l : List Char) :
    ∀ c, ((l.dropWhile (fun c => c == '-')).head? = some c) → ¬(c = '-') := by
  induction l with
  | nil => intro c h; simp at h
  | cons x rest ih =>
    intro c h
    rw [List.dropWhile_cons] at h
    by_cases hx : (x == '-') = true
    · rw [if_pos hx] at h
      exact ih c h
    · rw [if_neg hx] at h
      simp only [List.head?_cons, Option.some.injEq] at h
      subst h
      simpa using hx

/-- `rstripDashes` output is a prefix, so a head is a head of the input. -/
theorem head?_rstripDashes (u : List Char) (c : Char)
    (h : (rstripDashes u).head? = some c) : u.head? = some c := by
  obtain ⟨t, ht⟩ := List.rdropWhile_prefix (fun c => c == '-') u
  cases hr : List.rdropWhile (fun c => c == '-') u with
  | nil =>
    have h2 : rstripDashes u = [] := hr
    rw [h2] at h
    simp at h
  | cons a s =>
    have h2 : rstripDashes u = a :: s := hr
    rw [h2] at h
    simp only [List.head?_cons, Option.some.injEq] at h
    subst h
    rw [hr] at ht
    rw [← ht]
    rfl

/-- The last character surviving `rstripDashes` is not a hyphen. -/
theorem getLast?_rstripDashes (u : List Char) (c : Char)
    (h : (rstripDashes u).getLast? = some c) : ¬(c = '-') := by
  have h2 : (List.rdropWhile (fun c => c == '-') u).getLast? = some c := h
  unfold List.rdropWhile at h2
  rw [List.getLast?_reverse] at h2
  exact head?_dropDash u.reverse c h2

/-- `rstripDashes` never lengthens a list. -/
theorem length_rstripDashes (u : List Char) : (rstripDashes u).length ≤ u.length :=
  (List.rdropWhile_prefix (fun c => c == '-') u).length_le

/-- Membership chain through `stripDashes`. -/
theorem mem_stripDashes (u : List Char) (c : Char) (h : c ∈ stripDashes u) : c ∈ u := by
  have h1 : c ∈ u.dropWhile (fun c => c == '-') :=
    (List.rdropWhile_prefix (fun c => c == '-') _).subset h
  exact (List.dropWhile_suffix (fun c => c == '-')).subset h1

/-! ### Pagination -/

theorem getProjectDocumentsGo_spec (api : Nat → WdsResponse) :
    ∀ (full : List (List Doc)) (lastPage : List Doc) (k fuel : Nat) (acc : List Doc)
      (offs : List Nat),
      (∀ p ∈ full, p.length = 200) →
      lastPage.length < 200 →
      (∀ i, i < full.length + 1 →
        api (k + 200 * i) = WdsResponse.oldFormat ((full ++ [lastPage]).getD i [])) →
      full.length + 1 ≤ fuel →
      getProjectDocumentsGo api fuel k acc offs =
        (acc ++ (full.flatten ++ lastPage),
         offs ++ (List.range (full.length + 1)).map (fun i => k + 200 * i)) := by
  intro full
  induction full with
  | nil =>
    intro lastPage k fuel acc offs hfull hlast hapi hfuel
    obtain ⟨f, rfl⟩ : ∃ f, fuel = f + 1 := ⟨fuel - 1, by omega⟩
    have h0 := hapi 0 (by omega)
    simp only [Nat.mul_zero, Nat.add_zero, List.nil_append, List.getD_cons_zero] at h0
    by_cases he : lastPage = []
    · subst he
      simp [getProjectDocumentsGo, h0, List.range_succ]
    · have hne : lastPage.isEmpty = false := by simpa [List.isEmpty_iff] using he
      simp [getProjectDocumentsGo, h0, hne, hlast, List.range_succ]
  | cons p rest ih =>
    intro lastPage k fuel acc offs hfull hlast hapi hfuel
    obtain ⟨f, rfl⟩ : ∃ f, fuel = f + 1 := ⟨fuel - 1, by simp at hfuel; omega⟩
    have h0 := hapi 0 (by omega)
    simp only [Nat.mul_zero, Nat.add_zero, List.cons_append, List.getD_cons_zero] at h0
    have hp : p.length = 200 := hfull p (List.mem_cons_self p rest)
    have hpe : p.isEmpty = false := by
      cases p with
      | nil => simp at hp
      | cons x xs => rfl
    have hpl : ¬ p.length < 200 := by omega
    have hrec : getProjectDocumentsGo api (f + 1) k acc offs =
        getProjectDocumentsGo api f (k + 200) (acc ++ p) (offs ++ [k]) := by
      simp [getProjectDocumentsGo, h0, hpe, hpl]
    rw [hrec, ih lastPage (k + 200) f (acc ++ p) (offs ++ [k])
      (fun q hq => hfull q (List.mem_cons_of_mem p hq)) hlast
      (fun i hi => by
        have h1 := hapi (i + 1) (by simp only [List.length_cons]; omega)
        have h2 : k + 200 * (i + 1) = k + 200 + 200 * i := by ring
        rw [h2] at h1
        simpa using h1)
      (by simp only [List.length_cons] at hfuel; omega)]
    have hmap : List.map (fun i => k + 200 * i) (List.range (rest.length + 1 + 1)) =
        k :: List.map (fun i => k + 200 + 200 * i) (List.range (rest.length + 1)) := by
      rw [List.range_succ_eq_map, List.map_cons, List.map_map]
      simp only [Nat.mul_zero, Nat.add_zero]
      have h2 : List.map ((fun i => k + 200 * i) ∘ Nat.succ) (List.range (rest.length + 1)) =
          List.map (fun i => k + 200 + 200 * i) (List.range (rest.length + 1)) :=
        List.map_congr_left (fun i hi => by simp only [Function.comp]; omega)
      rw [h2]
    refine Prod.ext ?_ ?_
    · simp [List.flatten_cons, List.append_assoc]
    · simp only [List.length_cons]
      rw [hmap]
      simp [List.append_assoc]

/-! ### Retry policy -/

theorem callWdsApiGo_allRetry (outcome : Nat → AttemptOutcome) :
    ∀ (attempts : List Nat) (made : Nat) (delays : List Nat),
      (∀ a ∈ attempts, RetryableOutcome (outcome a)) →
      callWdsApiGo outcome attempts made delays =
        (.empty, made + attempts.length, delays ++ attempts.map (fun a => 2 ^ a)) := by
  intro attempts
  induction attempts with
  | nil =>
    intro made delays h
    simp [callWdsApiGo]
  | cons a rest ih =>
    intro made delays h
    have ha := h a (List.mem_cons_self a rest)
    have hrest := fun x hx => h x (List.mem_cons_of_mem a hx)
    cases ho : outcome a with
    | raised =>
      simp only [callWdsApiGo, ho]
      rw [ih (made + 1) (delays ++ [2 ^ a]) hrest]
      simp [List.append_assoc]
      omega
    | response code body =>
      rw [ho] at ha
      simp only [RetryableOutcome] at ha
      rcases ha with h429 | h5
      · subst h429
        simp only [callWdsApiGo, ho]
        norm_num
        rw [ih (made + 1) (delays ++ [2 ^ a]) hrest]
        simp [List.append_assoc]
        omega
      · have h200 : ¬ code = 200 := by omega
        have h429 : ¬ code = 429 := by omega
        simp only [callWdsApiGo, ho, h200, if_false, h429, h5, if_true]
        rw [ih (made + 1) (delays ++ [2 ^ a]) hrest]
        simp [List.append_assoc]
        omega

theorem callWdsApi_allRetry (outcome : Nat → AttemptOutcome)
    (h : ∀ a, a < 3 → RetryableOutcome (outcome a)) :
    callWdsApi outcome = (.empty, 3, [1, 2, 4]) := by
  have hr : List.range 3 = [0, 1, 2] := rfl
  rw [callWdsApi, hr, callWdsApiGo_allRetry outcome [0, 1, 2] 0 []
    (fun a ha => by
      simp only [List.mem_cons, List.mem_singleton, List.not_mem_nil, or_false] at ha
      rcases ha with rfl | rfl | rfl
      · exact h 0 (by omega)
      · exact h 1 (by omega)
      · exact h 2 (by omega))]
  rfl

theorem callWdsApi_non2xx (outcome : Nat → AttemptOutcome) (code : Nat) (body : WdsResponse)
    (h0 : outcome 0 = .response code body) (h200 : code ≠ 200) (h429 : code ≠ 429)
    (h5 : code < 500) : callWdsApi outcome = (.empty, 1, []) := by
  have hr : List.range 3 = [0, 1, 2] := rfl
  have hn5 : ¬ 500 ≤ code := by omega
  rw [callWdsApi, hr]
  simp [callWdsApiGo, h0, h200, h429, hn5]

/-! ### Selection and processing helpers -/

theorem selectDocumentsByLanguage_nil (langs : String) :
    selectDocumentsByLanguage langs [] = [] := by
  by_cases h : (langs == "all") = true <;> simp [selectDocumentsByLanguage, h]

theorem selectLatestDocuments_nil (b : Bool) : selectLatestDocuments b [] = [] := by
  cases b <;> simp [selectLatestDocuments, distinctLangs, distinctLangsGo]

theorem selectionPipeline_nil (cfg : Config) : selectionPipeline cfg [] = [] := by
  simp only [selectionPipeline, selectDocumentsByLanguage_nil]
  by_cases h : cfg.latest_only = true <;> simp [h, selectLatestDocuments_nil]

theorem processSelected_paths (cfg : Config) (sha : List Nat → String)
    (net : String → Option (List Nat)) (t pid c n : String) (l : List Doc) :
    ∀ fs, (processSelected cfg sha net t pid c n l fs).paths =
      l.map (fun d => getDocumentPath cfg d t pid c n) := by
  induction l with
  | nil => intro fs; rfl
  | cons d rest ih => intro fs; simp [processSelected, ih]

theorem processProject_of_empty (cfg : Config) (sha : List Nat → String)
    (api : Nat → WdsResponse) (fuel : Nat) (net : String → Option (List Nat)) (fs : FileSys)
    (pid c n : String) (h : (getProjectDocuments api fuel).1 = []) :
    processProject cfg sha api fuel net fs pid c n =
      ⟨createProjectSummary pid c n false false 0 0 [] [], fs, [], ⟨0, 0, 0⟩⟩ := by
  simp [processProject, h]

theorem loopOut_paths (cfg : Config) (sha : List Nat → String)
    (net : String → Option (List Nat)) (t pid c n : String) (l : List Doc) (fs : FileSys) :
    (if l.isEmpty then (⟨fs, [], ⟨0, 0, 0⟩, []⟩ : LoopOut)
     else processSelected cfg sha net t pid c n (selectionPipeline cfg l) fs).paths =
      (selectionPipeline cfg l).map (fun d => getDocumentPath cfg d t pid c n) := by
  by_cases hl : l = []
  · subst hl
    simp [selectionPipeline_nil]
  · have hne : l.isEmpty = false := by simpa [List.isEmpty_iff] using hl
    simp [hne, processSelected_paths]

theorem processProject_summary (cfg : Config) (sha : List Nat → String)
    (api : Nat → WdsResponse) (fuel : Nat) (net : String → Option (List Nat)) (fs : FileSys)
    (pid c n : String) :
    (processProject cfg sha api fuel net fs pid c n).summary =
      createProjectSummary pid c n
        (decide ((filterDocuments (getProjectDocuments api fuel).1).pid.length > 0))
        (decide ((filterDocuments (getProjectDocuments api fuel).1).pad.length > 0))
        (filterDocuments (getProjectDocuments api fuel).1).pid.length
        (filterDocuments (getProjectDocuments api fuel).1).pad.length
        ((selectionPipeline cfg (filterDocuments (getProjectDocuments api fuel).1).pid).map
          (fun d => getDocumentPath cfg d "PID" pid c n))
        ((selectionPipeline cfg (filterDocuments (getProjectDocuments api fuel).1).pad).map
          (fun d => getDocumentPath cfg d "PAD" pid c n)) := by
  by_cases hd : (getProjectDocuments api fuel).1 = []
  · rw [processProject_of_empty cfg sha api fuel net fs pid c n hd, hd]
    simp [filterDocuments, selectionPipeline_nil, createProjectSummary]
  · have hne : (getProjectDocuments api fuel).1.isEmpty = false := by
      simpa [List.isEmpty_iff] using hd
    simp only [processProject, hne, Bool.false_eq_true, if_false]
    rw [loopOut_paths, loopOut_paths]



/-! ### Download helpers -/

theorem downloadPdf_skipped_noNet (sha : List Nat → String) (dr : Bool)
    (net : String → Option (List Nat)) (fs : FileSys) (url p : String)
    (h : (downloadPdf sha dr net fs url p).result.status = "skipped_existing") :
    (downloadPdf sha dr net fs url p).netCalled = false := by
  cases dr with
  | true => simp [downloadPdf] at h
  | false =>
    by_cases h2 : (fs p).isSome = true
    · simp [downloadPdf, h2]
    · cases h3 : net url with
      | none => simp [downloadPdf, h2, h3] at h
      | some body =>
        by_cases h4 : body.length > 0 <;> simp [downloadPdf, h2, h3, h4] at h

/-! ### Slug assembly -/

theorem slugChars_length (l : List Char) : (slugChars l).length ≤ 120 := by
  simp only [slugChars]
  split
  · calc (rstripDashes ((stripDashes (collapseDashRuns false
          ((l.map Char.toLower).filter isKeptChar))).take 120)).length
        ≤ ((stripDashes (collapseDashRuns false
          ((l.map Char.toLower).filter isKeptChar))).take 120).length :=
          length_rstripDashes _
      _ ≤ 120 := by
          rw [List.length_take]
          exact Nat.min_le_left _ _
  · omega

theorem slugChars_mem (l : List Char) (c : Char) (h : c ∈ slugChars l) :
    isWordChar c = true ∨ c = '-' := by
  have hcoll : ∀ c, c ∈ collapseDashRuns false ((l.map Char.toLower).filter isKeptChar) →
      isWordChar c = true ∨ c = '-' := by
    intro c hc
    rcases collapse_mem _ false c hc with h1 | h1
    · exact Or.inr h1
    · left
      cases hw : isWordChar c with
      | true => rfl
      | false =>
        exfalso
        have hk := (List.mem_filter.mp h1.1).2
        simp only [isKeptChar, hw, Bool.false_or] at hk
        rw [h1.2] at hk
        simp at hk
  simp only [slugChars] at h
  split at h
  · have hmem : c ∈ stripDashes (collapseDashRuns false
        ((l.map Char.toLower).filter isKeptChar)) :=
      List.take_subset 120 _ ((List.rdropWhile_prefix (fun c => c == '-') _).subset h)
    exact hcoll c (mem_stripDashes _ c hmem)
  · exact hcoll c (mem_stripDashes _ c h)

theorem slugChars_head (l : List Char) (c : Char) (h : (slugChars l).head? = some c) :
    ¬(c = '-') := by
  simp only [slugChars] at h
  split at h
  · have h2 := head?_rstripDashes _ _ h
    have h3 : (stripDashes (collapseDashRuns false
        ((l.map Char.toLower).filter isKeptChar))).head? = some c := by
      cases hcase : stripDashes (collapseDashRuns false
          ((l.map Char.toLower).filter isKeptChar)) with
      | nil => rw [hcase] at h2; simp at h2
      | cons a sx =>
        rw [hcase] at h2
        simp only [List.take_succ_cons, List.head?_cons] at h2
        simp only [List.head?_cons]
        exact h2
    have h4 := head?_rstripDashes _ _ h3
    exact head?_dropDash _ _ h4
  · have h4 := head?_rstripDashes _ _ h
    exact head?_dropDash _ _ h4

theorem slugChars_last (l : List Char) (c : Char) (h : (slugChars l).getLast? = some c) :
    ¬(c = '-') := by
  simp only [slugChars] at h
  split at h
  · exact getLast?_rstripDashes _ _ h
  · exact getLast?_rstripDashes _ _ h

theorem slugChars_chain (l : List Char) :
    List.Chain' (fun a b : Char => ¬(a = '-' ∧ b = '-')) (slugChars l) := by
  have h0 := collapse_chain ((l.map Char.toLower).filter isKeptChar) false
  have h1 : List.Chain' (fun a b : Char => ¬(a = '-' ∧ b = '-'))
      ((collapseDashRuns false ((l.map Char.toLower).filter isKeptChar)).dropWhile
        (fun c => c == '-')) :=
    List.Chain'.suffix h0 (List.dropWhile_suffix _)
  have h2 : List.Chain' (fun a b : Char => ¬(a = '-' ∧ b = '-'))
      (stripDashes (collapseDashRuns false ((l.map Char.toLower).filter isKeptChar))) :=
    List.Chain'.prefix h1 (List.rdropWhile_prefix _ _)
  simp only [slugChars]
  split
  · have h3 := List.Chain'.prefix h2 (List.take_prefix 120 _)
    exact List.Chain'.prefix h3 (List.rdropWhile_prefix _ _)
  · exact h2


/-! ## Claims -/

/-- C1: classification evaluates the PID pattern first against both the
declared-type and display-name fields; if either matches, the resolved
type is PID and a PAD match cannot change the result; the PAD pattern
(declared-type or display-name) decides only when PID matched neither
field; a record matching neither pattern in either field yields none
and never enters either classified bucket of `filterDocuments`. -/
theorem c1_classification_precedence (d : Doc) :
    (detectDocumentType d = some DocType.PID ↔
      (pidSearch (doctyLower d) || pidSearch (docnaLower d)) = true) ∧
    (detectDocumentType d = some DocType.PAD ↔
      ((pidSearch (doctyLower d) || pidSearch (docnaLower d)) = false ∧
       (padSearch (doctyLower d) || padSearch (docnaLower d)) = true)) ∧
    (detectDocumentType d = none ↔
      ((pidSearch (doctyLower d) || pidSearch (docnaLower d)) = false ∧
       (padSearch (doctyLower d) || padSearch (docnaLower d)) = false)) ∧
    (∀ docs : List Doc, detectDocumentType d = none →
      d ∉ (filterDocuments docs).pid ∧ d ∉ (filterDocuments docs).pad) := by
  cases hpid : (pidSearch (doctyLower d) || pidSearch (docnaLower d)) <;>
    cases hpad : (padSearch (doctyLower d) || padSearch (docnaLower d)) <;>
      simp_all [detectDocumentType, filterDocuments, List.mem_filter]

theorem c1_classification_precedence_witness :
    detectDocumentType padPidDoc = some DocType.PID ∧
    detectDocumentType planDoc = none ∧
    planDoc ∉ (filterDocuments [planDoc]).pid := by
  refine ⟨?_, ?_, ?_⟩
  · exact (c1_classification_precedence padPidDoc).1.mpr (by decide)
  · exact (c1_classification_precedence planDoc).2.2.1.mpr (by decide)
  · exact ((c1_classification_precedence planDoc).2.2.2 [planDoc] (by decide)).1

/-- C5: with mode "all" the language step passes documents through
unchanged; with mode "en" it returns exactly the English-tagged
documents when any exist, and otherwise the singleton of the first
input document when the input is non-empty — never an empty result from
a non-empty input. -/
theorem c5_language_selection (docs : List Doc) :
    selectDocumentsByLanguage "all" docs = docs ∧
    (docs.filter isEnglish ≠ [] →
      selectDocumentsByLanguage "en" docs = docs.filter isEnglish) ∧
    (docs ≠ [] → docs.filter isEnglish = [] →
      selectDocumentsByLanguage "en" docs = docs.take 1) ∧
    (docs ≠ [] → selectDocumentsByLanguage "en" docs ≠ []) := by
  refine ⟨by simp [selectDocumentsByLanguage], ?_, ?_, ?_⟩
  · intro h
    cases hf : docs.filter isEnglish with
    | nil => exact absurd hf h
    | cons e es => simp [selectDocumentsByLanguage, hf]
  · intro hne hf
    cases docs with
    | nil => exact absurd rfl hne
    | cons d rest => simp [selectDocumentsByLanguage, hf]
  · intro hne
    cases hf : docs.filter isEnglish with
    | nil =>
      cases docs with
      | nil => exact absurd rfl hne
      | cons d rest => simp [selectDocumentsByLanguage, hf]
    | cons e es => simp [selectDocumentsByLanguage, hf]

theorem c5_language_selection_witness :
    selectDocumentsByLanguage "en" [deLangDoc] = [deLangDoc] ∧
    selectDocumentsByLanguage "en" [deLangDoc] ≠ [] :=
  ⟨(c5_language_selection [deLangDoc]).2.2.1 (by decide) (by decide),
   (c5_language_selection [deLangDoc]).2.2.2 (by decide)⟩

/-- C6: with latest_only the recency step groups its input by language
tag (groups in first-occurrence order) and keeps per group exactly the
first-encountered document among those carrying the maximal date (date
ties resolved to original input order); without latest_only it returns
its input unchanged; in particular two English-tagged documents dated
2020-01-01 and 2021-06-15 reduce to exactly the 2021-06-15 one. -/
theorem c6_latest_selection (docs : List Doc) :
    selectLatestDocuments false docs = docs ∧
    selectLatestDocuments true docs =
      (distinctLangs docs).filterMap
        (fun k => (docs.filter (fun d => langOf d == k)).find?
          (isLatestIn (docs.filter (fun d => langOf d == k)))) ∧
    selectLatestDocuments true
        [{ docdt := some "2020-01-01", lang := some "en" },
         { docdt := some "2021-06-15", lang := some "en" }] =
      [{ docdt := some "2021-06-15", lang := some "en" }] := by
  refine ⟨by simp [selectLatestDocuments], ?_, by decide⟩
  simp only [selectLatestDocuments, Bool.not_true, Bool.false_eq_true, if_false,
    head?_sortDescByDate, firstMaxByDate_eq_find?]


/-- C2: fetching all documents of a project requests pages of fixed
size 200 at offsets 0, 200, 400, ..., accumulates the records of every
page, and stops exactly when a page returns fewer than 200 records
(including zero): with `full.length` full pages followed by one short
page the result concatenates all pages and exactly `full.length + 1`
requests are made, at exactly those offsets. -/
theorem c2_pagination (api : Nat → WdsResponse) (full : List (List Doc)) (lastPage : List Doc)
    (fuel : Nat)
    (hfull : ∀ p ∈ full, p.length = 200)
    (hlast : lastPage.length < 200)
    (hapi : ∀ i, i < full.length + 1 →
      api (200 * i) = WdsResponse.oldFormat ((full ++ [lastPage]).getD i []))
    (hfuel : full.length + 1 ≤ fuel) :
    (getProjectDocuments api fuel).1 = full.flatten ++ lastPage ∧
    (getProjectDocuments api fuel).2 =
      (List.range (full.length + 1)).map (fun i => 200 * i) := by
  have h := getProjectDocumentsGo_spec api full lastPage 0 fuel [] [] hfull hlast
    (fun i hi => by simpa using hapi i hi) hfuel
  unfold getProjectDocuments
  rw [h]
  constructor
  · simp
  · simp

set_option maxRecDepth 8000 in
theorem c2_pagination_witness :
    (getProjectDocuments mockPagesApi 5).1.length = 447 ∧
    (getProjectDocuments mockPagesApi 5).2 = [0, 200, 400] := by
  have h := c2_pagination mockPagesApi
    [List.replicate 200 { docty := some "PID" }, List.replicate 200 { docty := some "PID" }]
    (List.replicate 47 { docty := some "PID" }) 5
    (by
      intro p hp
      simp only [List.mem_cons, List.mem_singleton, List.not_mem_nil, or_false] at hp
      rcases hp with rfl | rfl <;> simp)
    (by simp)
    (by
      intro i hi
      simp only [List.length_cons, List.length_nil] at hi
      interval_cases i <;> rfl)
    (by simp)
  refine ⟨?_, ?_⟩
  · rw [h.1]
    simp
  · rw [h.2]
    rfl

/-- C3: for each page request, HTTP 429, any 5xx, or a raised network
error is retried up to 3 attempts total with exponentially doubling
backoff delays 1, 2, 4; a 4xx other than 429 is not retried and the
call returns the empty response after exactly one attempt; exhausted
retries degrade to the empty response so pagination returns whatever
records were already accumulated; and a project whose every attempt
yields HTTP 503 still produces its summary row, with has_pid and
has_pad both false, after exactly 3 attempts for its single page call. -/
theorem c3_retry_policy :
    (∀ (outcome : Nat → AttemptOutcome) (code : Nat) (body : WdsResponse),
      outcome 0 = .response code body → 400 ≤ code → code ≤ 499 → code ≠ 429 →
      callWdsApi outcome = (.empty, 1, [])) ∧
    (∀ outcome : Nat → AttemptOutcome,
      (∀ a, a < 3 → RetryableOutcome (outcome a)) →
      callWdsApi outcome = (.empty, 3, [1, 2, 4])) ∧
    (∀ (api : Nat → WdsResponse) (p : List Doc) (fuel : Nat),
      api 0 = WdsResponse.oldFormat p → p.length = 200 → api 200 = WdsResponse.empty →
      2 ≤ fuel → (getProjectDocuments api fuel).1 = p) ∧
    (∀ (outcomes : Nat → Nat → AttemptOutcome) (cfg : Config) (sha : List Nat → String)
        (net : String → Option (List Nat)) (fs : FileSys) (pid c n : String) (fuel : Nat),
      (∀ off a, a < 3 → outcomes off a = .response 503 .empty) → 0 < fuel →
      (processProject cfg sha (apiOf outcomes) fuel net fs pid c n).summary.has_pid = false ∧
      (processProject cfg sha (apiOf outcomes) fuel net fs pid c n).summary.has_pad = false ∧
      (processProject cfg sha (apiOf outcomes) fuel net fs pid c n).summary.project_id = pid ∧
      (callWdsApi (outcomes 0)).2.1 = 3) := by
  refine ⟨?_, ?_, ?_, ?_⟩
  · intro outcome code body h0 h4a h4b h429
    exact callWdsApi_non2xx outcome code body h0 (by omega) h429 (by omega)
  · intro outcome h
    exact callWdsApi_allRetry outcome h
  · intro api p fuel h0 hp h200 hf
    have hpe : p.isEmpty = false := by
      cases p with
      | nil => simp at hp
      | cons x xs => rfl
    have hpl : ¬ p.length < 200 := by omega
    obtain ⟨g, rfl⟩ : ∃ g, fuel = g + 1 + 1 := ⟨fuel - 2, by omega⟩
    have hstep1 : getProjectDocumentsGo api (g + 1 + 1) 0 [] [] =
        getProjectDocumentsGo api (g + 1) 200 p [0] := by
      simp [getProjectDocumentsGo, h0, hpe, hpl]
    have hstep2 : getProjectDocumentsGo api (g + 1) 200 p [0] = (p, [0, 200]) := by
      simp [getProjectDocumentsGo, h200]
    unfold getProjectDocuments
    rw [hstep1, hstep2]
  · intro outcomes cfg sha net fs pid c n fuel hout hfuel
    have hretry : ∀ a, a < 3 → RetryableOutcome (outcomes 0 a) := by
      intro a ha
      rw [hout 0 a ha]
      exact Or.inr (by omega)
    have hapi0 : apiOf outcomes 0 = WdsResponse.empty := by
      unfold apiOf
      rw [callWdsApi_allRetry (outcomes 0) hretry]
    have hdocs : (getProjectDocuments (apiOf outcomes) fuel).1 = [] := by
      obtain ⟨f, rfl⟩ : ∃ f, fuel = f + 1 := ⟨fuel - 1, by omega⟩
      unfold getProjectDocuments
      simp [getProjectDocumentsGo, hapi0]
    rw [processProject_of_empty cfg sha (apiOf outcomes) fuel net fs pid c n hdocs]
    refine ⟨rfl, rfl, rfl, ?_⟩
    rw [callWdsApi_allRetry (outcomes 0) hretry]

theorem c3_retry_policy_witness :
    callWdsApi mock404 = (.empty, 1, []) ∧
    callWdsApi (mock503 0) = (.empty, 3, [1, 2, 4]) ∧
    (processProject ⟨"downloads", "en", false, false⟩ (fun _ => "") (apiOf mock503) 1
        (fun _ => none) emptyFs "P1" "Kenya" "Road Project").summary.has_pid = false ∧
    (processProject ⟨"downloads", "en", false, false⟩ (fun _ => "") (apiOf mock503) 1
        (fun _ => none) emptyFs "P1" "Kenya" "Road Project").summary.has_pad = false := by
  refine ⟨?_, ?_, ?_, ?_⟩
  · exact c3_retry_policy.1 mock404 404 .empty rfl (by omega) (by omega) (by omega)
  · exact c3_retry_policy.2.1 (mock503 0)
      (fun a ha => by
        rw [show mock503 0 a = .response 503 .empty from rfl]
        exact Or.inr (by omega))
  · exact (c3_retry_policy.2.2.2 mock503 ⟨"downloads", "en", false, false⟩ (fun _ => "")
      (fun _ => none) emptyFs "P1" "Kenya" "Road Project" 1
      (fun off a ha => rfl) (by omega)).1
  · exact (c3_retry_policy.2.2.2 mock503 ⟨"downloads", "en", false, false⟩ (fun _ => "")
      (fun _ => none) emptyFs "P1" "Kenya" "Road Project" 1
      (fun off a ha => rfl) (by omega)).2.1


/-- C4 counterexample: with dry-run set and the destination already
present on disk, `downloadPdf` returns status "dry_run", not
"skipped_existing" — the dry-run check precedes the existing-file
check, refuting the unqualified claim. -/
theorem c4_counterexample :
    (oneFileFs "d.pdf").isSome = true ∧
    (downloadPdf (fun _ => "h") true (fun _ => none) oneFileFs "u" "d.pdf").result.status =
      "dry_run" ∧
    (downloadPdf (fun _ => "h") true (fun _ => none) oneFileFs "u" "d.pdf").result.status ≠
      "skipped_existing" := by
  exact ⟨rfl, rfl, by decide⟩

/-- C4 (amended): provided dry_run is not set, an already existing
destination short-circuits to (true, "skipped_existing", hash of the
existing file) with no network call and no filesystem change; and in
every configuration a result with status "skipped_existing" was
produced without any network call, also at the manifest-row level. -/
theorem c4_amended :
    (∀ (sha : List Nat → String) (net : String → Option (List Nat)) (fs : FileSys)
        (url p : String), (fs p).isSome = true →
      downloadPdf sha false net fs url p =
        ⟨⟨true, "skipped_existing", getFileHash sha fs p⟩, fs, false⟩) ∧
    (∀ (sha : List Nat → String) (dr : Bool) (net : String → Option (List Nat)) (fs : FileSys)
        (url p : String),
      (downloadPdf sha dr net fs url p).result.status = "skipped_existing" →
      (downloadPdf sha dr net fs url p).netCalled = false) ∧
    (∀ (cfg : Config) (sha : List Nat → String) (net : String → Option (List Nat)) (d : Doc)
        (t pid c n : String) (fs : FileSys) (row : ManifestRow),
      (downloadDocument cfg sha net d t pid c n fs).row = some row →
      row.status = "skipped_existing" →
      (downloadDocument cfg sha net d t pid c n fs).netCalled = false) := by
  refine ⟨?_, ?_, ?_⟩
  · intro sha net fs url p h
    simp [downloadPdf, h]
  · intro sha dr net fs url p h
    exact downloadPdf_skipped_noNet sha dr net fs url p h
  · intro cfg sha net d t pid c n fs row hrow hstat
    cases hurl : determinePdfUrl d with
    | none => simp [downloadDocument, hurl] at hrow
    | some u =>
      simp only [downloadDocument, hurl, Option.some.injEq] at hrow ⊢
      rw [← hrow] at hstat
      exact downloadPdf_skipped_noNet sha cfg.dry_run net fs u
        (getDocumentPath cfg d t pid c n) hstat

theorem c4_amended_witness :
    downloadPdf (fun _ => "h") false (fun _ => none) oneFileFs "u" "d.pdf" =
      ⟨⟨true, "skipped_existing", "h"⟩, oneFileFs, false⟩ :=
  c4_amended.1 (fun _ => "h") (fun _ => none) oneFileFs "u" "d.pdf" (by decide)

/-- C7: the summary's pid_count / pad_count and has_pid / has_pad are
computed from the full classified buckets, before the language and
recency selection steps are applied; concretely, two German-tagged
classified PIDs under language mode "en" give pid_count 2 while only 1
document is selected for download. -/
theorem c7_counts_before_selection :
    (∀ (cfg : Config) (sha : List Nat → String) (api : Nat → WdsResponse) (fuel : Nat)
        (net : String → Option (List Nat)) (fs : FileSys) (pid c n : String),
      (processProject cfg sha api fuel net fs pid c n).summary.pid_count =
        (filterDocuments (getProjectDocuments api fuel).1).pid.length ∧
      (processProject cfg sha api fuel net fs pid c n).summary.pad_count =
        (filterDocuments (getProjectDocuments api fuel).1).pad.length ∧
      (processProject cfg sha api fuel net fs pid c n).summary.has_pid =
        decide (0 < (filterDocuments (getProjectDocuments api fuel).1).pid.length) ∧
      (processProject cfg sha api fuel net fs pid c n).summary.has_pad =
        decide (0 < (filterDocuments (getProjectDocuments api fuel).1).pad.length)) ∧
    ((filterDocuments [deDoc1, deDoc2]).pid.length = 2 ∧
     (selectionPipeline ⟨"downloads", "en", false, false⟩
        (filterDocuments [deDoc1, deDoc2]).pid).length = 1) := by
  constructor
  · intro cfg sha api fuel net fs pid c n
    rw [processProject_summary cfg sha api fuel net fs pid c n]
    exact ⟨rfl, rfl, rfl, rfl⟩
  · constructor
    · decide
    · decide

/-- C8 counterexample: with a network that always fails, the single
selected PID document's download attempt is recorded as failed in the
manifest, yet its storage path still appears in pid_paths — refuting
the claim that a path whose download was not performed or failed does
not appear. -/
theorem c8_counterexample :
    (processProject ⟨"downloads", "all", false, false⟩ (fun _ => "") failApi 1
        (fun _ => none) emptyFs "P1" "Kenya" "n").rows.map ManifestRow.status = ["failed"] ∧
    (processProject ⟨"downloads", "all", false, false⟩ (fun _ => "") failApi 1
        (fun _ => none) emptyFs "P1" "Kenya" "n").summary.pid_paths ≠ "" := by
  constructor
  · decide
  · decide

/-- C8 (amended): pid_paths / pad_paths are the semicolon-joined
storage paths of every document selected for download of that type, in
selection order, regardless of whether each download succeeded, was
skipped, or failed. -/
theorem c8_amended (cfg : Config) (sha : List Nat → String) (api : Nat → WdsResponse)
    (fuel : Nat) (net : String → Option (List Nat)) (fs : FileSys) (pid c n : String) :
    (processProject cfg sha api fuel net fs pid c n).summary.pid_paths =
      String.intercalate ";"
        ((selectionPipeline cfg (filterDocuments (getProjectDocuments api fuel).1).pid).map
          (fun d => getDocumentPath cfg d "PID" pid c n)) ∧
    (processProject cfg sha api fuel net fs pid c n).summary.pad_paths =
      String.intercalate ";"
        ((selectionPipeline cfg (filterDocuments (getProjectDocuments api fuel).1).pad).map
          (fun d => getDocumentPath cfg d "PAD" pid c n)) := by
  rw [processProject_summary cfg sha api fuel net fs pid c n]
  exact ⟨rfl, rfl⟩

/-- C9 counterexample: the source slug deletes a non-word,
non-whitespace character such as "." instead of replacing its run with
a hyphen as the claim describes: slug "a.b" is "ab" while the claimed
transformation yields "a-b". -/
theorem c9_counterexample :
    slug "a.b" = "ab" ∧ slugSpec "a.b" = "a-b" ∧ slug "a.b" ≠ slugSpec "a.b" := by
  exact ⟨by decide, by decide, by decide⟩

/-- C9 (amended): slug lower-cases (ASCII), keeps only word characters
(alphanumerics and underscore) and hyphens — deleting other punctuation
outright while collapsing each whitespace/hyphen run to a single
hyphen — trims hyphens at both ends, truncates to at most 120
characters without leaving a leading or trailing hyphen or two adjacent
hyphens, and is deterministic. -/
theorem c9_amended (s : String) :
    (slug s).length ≤ 120 ∧
    (∀ ch ∈ (slug s).data, isWordChar ch = true ∨ ch = '-') ∧
    (∀ ch, (slug s).data.head? = some ch → ¬(ch = '-')) ∧
    (∀ ch, (slug s).data.getLast? = some ch → ¬(ch = '-')) ∧
    List.Chain' (fun a b : Char => ¬(a = '-' ∧ b = '-')) (slug s).data ∧
    (∀ t, s = t → slug s = slug t) ∧
    slug "Hello,  World!" = "hello-world" ∧
    slug "A_b.c" = "a_bc" := by
  refine ⟨slugChars_length s.data, ?_, ?_, ?_, slugChars_chain s.data, ?_, by decide, by decide⟩
  · intro ch hch
    exact slugChars_mem s.data ch hch
  · intro ch h
    exact slugChars_head s.data ch h
  · intro ch h
    exact slugChars_last s.data ch h
  · intro t ht
    rw [ht]

theorem c9_amended_witness :
    (slug "x y").data.head? = some 'x' ∧ ¬('x' = '-') :=
  ⟨by decide, (c9_amended "x y").2.2.1 'x' (by decide)⟩

/-- C10: a non-dry-run download whose HTTP request succeeds with an
empty body returns (false, "failed", "") yet leaves the zero-byte file
written at the destination, so every subsequent non-dry-run download
call for the same destination returns (true, "skipped_existing", hash
of the empty file) without touching the network. -/
theorem c10_zero_byte_file (sha : List Nat → String) (net : String → Option (List Nat))
    (fs : FileSys) (url p : String) (hfs : fs p = none) (hnet : net url = some []) :
    (downloadPdf sha false net fs url p).result = ⟨false, "failed", ""⟩ ∧
    (downloadPdf sha false net fs url p).netCalled = true ∧
    (downloadPdf sha false net fs url p).fs p = some [] ∧
    (∀ (net2 : String → Option (List Nat)) (url2 : String),
      (downloadPdf sha false net2 (downloadPdf sha false net fs url p).fs url2 p).result =
        ⟨true, "skipped_existing", sha []⟩ ∧
      (downloadPdf sha false net2 (downloadPdf sha false net fs url p).fs url2 p).netCalled =
        false) := by
  have hmain : downloadPdf sha false net fs url p =
      ⟨⟨false, "failed", ""⟩, fun q => if q = p then some [] else fs q, true⟩ := by
    simp [downloadPdf, hfs, hnet]
  refine ⟨by rw [hmain], by rw [hmain], by rw [hmain]; simp, ?_⟩
  intro net2 url2
  rw [hmain]
  constructor
  · simp [downloadPdf, getFileHash]
  · simp [downloadPdf]

theorem c10_zero_byte_file_witness :
    (downloadPdf (fun _ => "e") false emptyBodyNet emptyFs "u" "p.pdf").result =
      ⟨false, "failed", ""⟩ ∧
    (downloadPdf (fun _ => "e") false (fun _ => none)
        (downloadPdf (fun _ => "e") false emptyBodyNet emptyFs "u" "p.pdf").fs
        "u2" "p.pdf").result = ⟨true, "skipped_existing", "e"⟩ := by
  have h := c10_zero_byte_file (fun _ => "e") emptyBodyNet emptyFs "u" "p.pdf" rfl rfl
  exact ⟨h.1, (h.2.2.2 (fun _ => none) "u2").1⟩

end WBDL
